import Mathlib

/-!
Verification of the NordVPN WireGuard config generator's server selection and
ranking pipeline, shallowly embedded from
`src/nordgen/src/nord_config_generator/main.py` (the fully-featured variant the
spec describes).  Python floats are modelled as rationals where only data flow
matters and as real numbers for the haversine formula; Python strings are
modelled through their character lists (`String.data`), restricted to ASCII
case semantics.
-/

set_option maxRecDepth 4000

deriving instance DecidableEq for Except

/-- Python exceptions that can arise inside `_parse_server_data`.  The
`try/except` clause of the source catches only `KeyError`, `IndexError` and
`StopIteration`. -/
inductive PyExc where
  | keyError
  | indexError
  | stopIteration
  | valueError
  | typeError
  | attributeError
deriving DecidableEq, Repr

/-- The `Server` dataclass of `main.py` (lines 27-41).  `latitude`,
`longitude` and `distance` are Python floats, modelled as rationals. -/
structure Server where
  name : String
  hostname : String
  station : String
  load : Int
  country : String
  country_code : String
  city : String
  region : String
  server_type : String
  latitude : ℚ
  longitude : ℚ
  public_key : String
  distance : ℚ
deriving DecidableEq, Repr

/-- The grouping key used by `_get_best_servers` (line 322):
`key = (server.country, server.city, server.server_type)`. -/
def bestKey (s : Server) : String × String × String :=
  (s.country, s.city, s.server_type)

/-- The quadruple key the spec claims is used for best-server grouping
(`serverType`, `region`, `country`, `city`).  Modelled from the spec for
comparison with `bestKey`; the code's key omits `region`. -/
def specQuadKey (s : Server) : String × String × String × String :=
  (s.server_type, s.region, s.country, s.city)

/-- One step of the dict update in `_get_best_servers`:
`if key not in best or server.load < best[key].load: best[key] = server`.
The dict is modelled as an association list in insertion order; an update of
an existing key keeps its position, a new key is appended. -/
def insertBest (k : String × String × String) (s : Server) :
    List ((String × String × String) × Server) → List ((String × String × String) × Server)
  | [] => [(k, s)]
  | (k', s') :: rest =>
      if k' = k then (if s.load < s'.load then (k', s) else (k', s')) :: rest
      else (k', s') :: insertBest k s rest

/-- The loop of `_get_best_servers` (lines 319-325), with the accumulating
dictionary made explicit. -/
def getBestAux (best : List ((String × String × String) × Server)) :
    List Server → List ((String × String × String) × Server)
  | [] => best
  | s :: rest => getBestAux (insertBest (bestKey s) s best) rest

/-- `_get_best_servers(sorted_servers)`: fold the update loop over the input
list starting from the empty dict. -/
def getBestServers (l : List Server) : List ((String × String × String) × Server) :=
  getBestAux [] l

/-- The selected best servers (`best_servers.values()` in the source). -/
def selectedServers (l : List Server) : List Server :=
  (getBestServers l).map Prod.snd

/-- Dict lookup on the association list model. -/
def lookupBest (k : String × String × String) :
    List ((String × String × String) × Server) → Option Server
  | [] => none
  | (k', s) :: rest => if k' = k then some s else lookupBest k rest

/-- The per-group minimum that the `_get_best_servers` loop computes: fold
"replace only on strictly smaller load" over the members of group `k`. -/
def minLoad (cur : Option Server) (s : Server) : Option Server :=
  match cur with
  | none => some s
  | some b => if s.load < b.load then some s else some b

/-- Running minimum of group `k` along the input list, seeded with `cur`. -/
def groupMin (k : String × String × String) (cur : Option Server) :
    List Server → Option Server
  | [] => cur
  | s :: rest => groupMin k (if bestKey s = k then minLoad cur s else cur) rest

theorem lookupBest_insertBest (k k' : String × String × String) (s : Server)
    (best : List ((String × String × String) × Server)) :
    lookupBest k (insertBest k' s best) =
      if k' = k then minLoad (lookupBest k best) s else lookupBest k best := by
  induction best with
  | nil =>
      by_cases h : k' = k
      · simp [insertBest, lookupBest, h, minLoad]
      · simp [insertBest, lookupBest, h]
  | cons p rest ih =>
      obtain ⟨k0, s0⟩ := p
      simp only [insertBest]
      by_cases h0 : k0 = k'
      · rw [if_pos h0]
        by_cases hk : k' = k
        · have hk0 : k0 = k := h0.trans hk
          by_cases hl : s.load < s0.load
          · rw [if_pos hl]; simp [lookupBest, hk0, hk, minLoad, hl]
          · rw [if_neg hl]; simp [lookupBest, hk0, hk, minLoad, hl]
        · have hk0 : ¬ k0 = k := fun he => hk (h0.symm.trans he)
          by_cases hl : s.load < s0.load
          · rw [if_pos hl]; simp [lookupBest, hk0, hk]
          · rw [if_neg hl]; simp [lookupBest, hk0, hk]
      · rw [if_neg h0]
        by_cases hk0 : k0 = k
        · have hk' : ¬ k' = k := fun he => h0 (hk0.trans he.symm)
          simp [lookupBest, hk0, hk']
        · simp [lookupBest, hk0, ih]

theorem lookupBest_getBestAux (k : String × String × String)
    (l : List Server) :
    ∀ best, lookupBest k (getBestAux best l) = groupMin k (lookupBest k best) l := by
  induction l with
  | nil => intro best; simp [getBestAux, groupMin]
  | cons s rest ih =>
      intro best
      simp only [getBestAux, groupMin]
      rw [ih, lookupBest_insertBest]

theorem groupMin_none_of_no_member (k : String × String × String) (l : List Server)
    (h : ∀ s ∈ l, bestKey s ≠ k) : groupMin k none l = none := by
  induction l with
  | nil => rfl
  | cons s rest ih =>
      simp only [groupMin]
      have hs : bestKey s ≠ k := h s (by simp)
      rw [if_neg hs]
      exact ih fun t ht => h t (by simp [ht])

theorem groupMin_spec (k : String × String × String) (l : List Server) :
    ∀ cur b, groupMin k cur l = some b →
      (cur = some b ∨ (b ∈ l ∧ bestKey b = k)) ∧
      (∀ b0, cur = some b0 → b.load ≤ b0.load) ∧
      (∀ s ∈ l, bestKey s = k → b.load ≤ s.load) := by
  induction l with
  | nil =>
      intro cur b h
      simp only [groupMin] at h
      refine ⟨Or.inl h, ?_, fun s hs => absurd hs (List.not_mem_nil s)⟩
      intro b0 h0
      rw [h0] at h
      cases Option.some.inj h
      exact le_refl _
  | cons s rest ih =>
      intro cur b h
      simp only [groupMin] at h
      by_cases hk : bestKey s = k
      · rw [if_pos hk] at h
        obtain ⟨hmem, hcur, hmin⟩ := ih (minLoad cur s) b h
        have hmeq : ∃ m, minLoad cur s = some m ∧ m.load ≤ s.load ∧
            (∀ b1, cur = some b1 → m.load ≤ b1.load) ∧ (m = s ∨ cur = some m) := by
          match cur with
          | none =>
              refine ⟨s, rfl, le_refl _, ?_, Or.inl rfl⟩
              intro b1 h1
              exact absurd h1 (by simp)
          | some b1 =>
              by_cases hl : s.load < b1.load
              · refine ⟨s, by simp [minLoad, hl], le_refl _, ?_, Or.inl rfl⟩
                intro b2 h2
                have he : b1 = b2 := Option.some.inj h2
                rw [← he]
                exact le_of_lt hl
              · refine ⟨b1, by simp [minLoad, hl], not_lt.mp hl, ?_, Or.inr rfl⟩
                intro b2 h2
                have he : b1 = b2 := Option.some.inj h2
                rw [← he]
        obtain ⟨m, hm, hms, hmb, hmor⟩ := hmeq
        have hbm : b.load ≤ m.load := hcur m hm
        refine ⟨?_, ?_, ?_⟩
        · rcases hmem with hm2 | hm2
          · rw [hm] at hm2
            have he : m = b := Option.some.inj hm2
            rcases hmor with he2 | hcm
            · refine Or.inr ⟨?_, ?_⟩
              · rw [← he, he2]; exact List.mem_cons_self s rest
              · rw [← he, he2]; exact hk
            · exact Or.inl (by rw [hcm, he])
          · exact Or.inr ⟨List.mem_cons_of_mem _ hm2.1, hm2.2⟩
        · intro b0 h0
          exact hbm.trans (hmb b0 h0)
        · intro t ht htk
          rcases List.mem_cons.mp ht with rfl | ht'
          · exact hbm.trans hms
          · exact hmin t ht' htk
      · rw [if_neg hk] at h
        obtain ⟨hmem, hcur, hmin⟩ := ih cur b h
        refine ⟨?_, hcur, ?_⟩
        · rcases hmem with hm | hm
          · exact Or.inl hm
          · exact Or.inr ⟨List.mem_cons_of_mem _ hm.1, hm.2⟩
        · intro t ht htk
          rcases List.mem_cons.mp ht with rfl | ht'
          · exact absurd htk hk
          · exact hmin t ht' htk

theorem groupMin_isSome_of_member (k : String × String × String) (l : List Server) :
    ∀ cur, (cur.isSome ∨ ∃ s ∈ l, bestKey s = k) → (groupMin k cur l).isSome := by
  induction l with
  | nil =>
      intro cur h
      rcases h with h | ⟨s, hs, _⟩
      · simpa [groupMin] using h
      · exact absurd hs (List.not_mem_nil s)
  | cons s rest ih =>
      intro cur h
      simp only [groupMin]
      by_cases hk : bestKey s = k
      · rw [if_pos hk]
        apply ih
        left
        match cur with
        | none => simp [minLoad]
        | some b => simp [minLoad]; split <;> simp
      · rw [if_neg hk]
        apply ih
        rcases h with h | ⟨t, ht, htk⟩
        · exact Or.inl h
        · rcases List.mem_cons.mp ht with rfl | ht'
          · exact absurd htk hk
          · exact Or.inr ⟨t, ht', htk⟩

theorem keys_insertBest (k : String × String × String) (s : Server)
    (best : List ((String × String × String) × Server)) :
    (insertBest k s best).map Prod.fst =
      if k ∈ best.map Prod.fst then best.map Prod.fst else best.map Prod.fst ++ [k] := by
  induction best with
  | nil => simp [insertBest]
  | cons p rest ih =>
      obtain ⟨k0, s0⟩ := p
      by_cases h0 : k0 = k
      · subst h0
        by_cases hl : s.load < s0.load <;> simp [insertBest, hl]
      · have hne : k ≠ k0 := fun he => h0 he.symm
        by_cases hmem : k ∈ rest.map Prod.fst <;>
          simp [insertBest, h0, ih, hmem, hne]

theorem keys_nodup_insertBest (k : String × String × String) (s : Server)
    (best : List ((String × String × String) × Server))
    (h : (best.map Prod.fst).Nodup) : ((insertBest k s best).map Prod.fst).Nodup := by
  rw [keys_insertBest]
  by_cases hmem : k ∈ best.map Prod.fst
  · simpa [hmem] using h
  · simp only [hmem, if_false]
    simp [List.nodup_append, h, hmem]

theorem keys_nodup_getBestAux (l : List Server) :
    ∀ best, (best.map Prod.fst).Nodup → ((getBestAux best l).map Prod.fst).Nodup := by
  induction l with
  | nil => intro best h; exact h
  | cons s rest ih =>
      intro best h
      exact ih _ (keys_nodup_insertBest (bestKey s) s best h)

/-- C1 (amended): `_get_best_servers` partitions the input by the triple
`(country, city, serverType)` — the region is NOT part of the grouping key —
and selects exactly one member per non-empty triple group; the selected
member belongs to the group and its load is less than or equal to the load of
every other member of that group. -/
theorem claim1_best_server_selection (l : List Server) :
    (∀ s ∈ l, ∃ b, lookupBest (bestKey s) (getBestServers l) = some b) ∧
    (∀ k b, lookupBest k (getBestServers l) = some b →
      b ∈ l ∧ bestKey b = k ∧ ∀ s ∈ l, bestKey s = k → b.load ≤ s.load) ∧
    ((getBestServers l).map Prod.fst).Nodup := by
  have hbase : ∀ k, lookupBest k (getBestServers l) = groupMin k none l := by
    intro k
    exact lookupBest_getBestAux k l []
  refine ⟨?_, ?_, ?_⟩
  · intro s hs
    have : (groupMin (bestKey s) none l).isSome :=
      groupMin_isSome_of_member (bestKey s) l none (Or.inr ⟨s, hs, rfl⟩)
    rw [← hbase] at this
    exact Option.isSome_iff_exists.mp this
  · intro k b hb
    rw [hbase] at hb
    obtain ⟨hmem, _, hmin⟩ := groupMin_spec k l none b hb
    rcases hmem with hm | hm
    · exact absurd hm (by simp)
    · exact ⟨hm.1, hm.2, hmin⟩
  · exact keys_nodup_getBestAux l [] (by simp)

/-- Server used in the C1 counterexample (country Germany, city Berlin,
type Standard, region Europe). -/
def c1ServerA : Server :=
  { name := "de1000", hostname := "de1000.nordvpn.com", station := "1.2.3.4",
    load := 10, country := "Germany", country_code := "de", city := "Berlin",
    region := "Europe", server_type := "Standard", latitude := 52, longitude := 13,
    public_key := "pkA", distance := 0 }

/-- Second C1 server: same country/city/type as `c1ServerA` but a different
region, so the spec's quadruple grouping would put it in its own group. -/
def c1ServerB : Server :=
  { name := "de1001", hostname := "de1001.nordvpn.com", station := "1.2.3.5",
    load := 20, country := "Germany", country_code := "de", city := "Berlin",
    region := "Unknown", server_type := "Standard", latitude := 52, longitude := 13,
    public_key := "pkB", distance := 0 }

/-- C1 counterexample: with two servers that differ only in `region`,
the code's selection keeps a single server, so the non-empty quadruple group
of the second server has no selected member — the claimed partition by the
full quadruple (serverType, region, country, city) fails. -/
theorem claim1_counterexample :
    ¬ (∀ s ∈ [c1ServerA, c1ServerB],
        ∃ b ∈ selectedServers [c1ServerA, c1ServerB], specQuadKey b = specQuadKey s) := by
  decide

/-- C1 witness: the amended theorem applied to the concrete two-server list. -/
theorem claim1_witness :
    ∃ b, lookupBest (bestKey c1ServerA) (getBestServers [c1ServerA, c1ServerB]) = some b :=
  (claim1_best_server_selection [c1ServerA, c1ServerB]).1 c1ServerA (by simp)

/-- One step of the dedup loop in `generate` (lines 286-290):
`if s.name not in unique_servers: unique_servers[s.name] = s`.
The dict maps a name to the first server seen with that name; insertion order
is preserved by appending. -/
def dedupStep (acc : List (String × Server)) (s : Server) : List (String × Server) :=
  if acc.any (fun kv => kv.1 = s.name) then acc else acc ++ [(s.name, s)]

/-- The dedup loop with the accumulating dictionary made explicit. -/
def dedupAux (acc : List (String × Server)) : List Server → List (String × Server)
  | [] => acc
  | s :: rest => dedupAux (dedupStep acc s) rest

/-- `list(unique_servers.values())` after the dedup loop of `generate`. -/
def dedupByName (l : List Server) : List Server :=
  (dedupAux [] l).map Prod.snd

theorem dedupAux_filter (n : String) (l : List Server) :
    ∀ acc, (∀ kv ∈ acc, kv.1 = kv.2.name) →
      ((dedupAux acc l).map Prod.snd).filter (fun s => s.name = n) =
        (acc.map Prod.snd).filter (fun s => s.name = n) ++
          (if acc.any (fun kv => kv.1 = n) then []
           else (l.filter (fun s => s.name = n)).take 1) := by
  induction l with
  | nil =>
      intro acc _
      simp [dedupAux]
  | cons s rest ih =>
      intro acc hinv
      simp only [dedupAux, dedupStep]
      by_cases hc : acc.any (fun kv => kv.1 = s.name)
      · rw [if_pos hc]
        rw [ih acc hinv]
        by_cases hn : s.name = n
        · have hcn : acc.any (fun kv => kv.1 = n) := by
            rw [← hn]; exact hc
          simp [hcn, List.filter_cons, hn]
        · rw [List.filter_cons]
          simp [hn]
      · rw [if_neg hc]
        have hinv' : ∀ kv ∈ acc ++ [(s.name, s)], kv.1 = kv.2.name := by
          intro kv hkv
          rcases List.mem_append.mp hkv with h | h
          · exact hinv kv h
          · simp at h
            rw [h]
        rw [ih _ hinv']
        by_cases hn : s.name = n
        · have hcn : ¬ acc.any (fun kv => kv.1 = n) := by
            rw [← hn]; exact hc
          have hnew : (acc ++ [(s.name, s)]).any (fun kv => kv.1 = n) := by
            simp [List.any_append, hn]
          rw [if_pos hnew, if_neg (by exact hcn)]
          simp [List.filter_cons, hn, List.filter_append]
        · have hcn : ((acc ++ [(s.name, s)]).any (fun kv => kv.1 = n)) =
              acc.any (fun kv => kv.1 = n) := by
            simp [List.any_append, hn]
          rw [hcn]
          by_cases hca : acc.any (fun kv => kv.1 = n)
          · rw [if_pos hca, if_pos hca]
            simp [List.filter_append, List.filter_cons, hn]
          · rw [if_neg hca, if_neg hca]
            simp [List.filter_append, List.filter_cons, hn]

/-- For every list and every name, the deduplicated output restricted to that
name is exactly the first occurrence of that name in the input. -/
theorem dedupByName_filter_eq (l : List Server) (n : String) :
    (dedupByName l).filter (fun s => s.name = n) =
      (l.filter (fun s => s.name = n)).take 1 := by
  have := dedupAux_filter n l [] (by simp)
  simpa [dedupByName] using this

/-- C2: if the input contains two or more servers of the same name, the
deduplication step of `generate` keeps exactly one entry for that name,
namely the first occurrence in input order. -/
theorem claim2_dedup_first_occurrence (l : List Server) (n : String)
    (h : 2 ≤ (l.filter (fun s => s.name = n)).length) :
    ((dedupByName l).filter (fun s => s.name = n)).length = 1 ∧
    (dedupByName l).filter (fun s => s.name = n) =
      (l.filter (fun s => s.name = n)).take 1 := by
  refine ⟨?_, dedupByName_filter_eq l n⟩
  rw [dedupByName_filter_eq l n, List.length_take]
  omega

/-- First C2 sample server. -/
def c2ServerA : Server :=
  { name := "fr77", hostname := "fr77.nordvpn.com", station := "5.6.7.8",
    load := 5, country := "France", country_code := "fr", city := "Paris",
    region := "Europe", server_type := "P2P", latitude := 48, longitude := 2,
    public_key := "pkC", distance := 1 }

/-- Second C2 sample server: same name as `c2ServerA`, different payload. -/
def c2ServerB : Server :=
  { name := "fr77", hostname := "fr77-bis.nordvpn.com", station := "5.6.7.9",
    load := 30, country := "France", country_code := "fr", city := "Paris",
    region := "Europe", server_type := "Standard", latitude := 48, longitude := 2,
    public_key := "pkD", distance := 2 }

/-- C2 witness: the theorem applied to a concrete list with a duplicated
name; both hypothesis and conclusion evaluate on the concrete data. -/
theorem claim2_witness :
    ((dedupByName [c2ServerA, c2ServerB]).filter (fun s => s.name = "fr77")).length = 1 ∧
    (dedupByName [c2ServerA, c2ServerB]).filter (fun s => s.name = "fr77") =
      ([c2ServerA, c2ServerB].filter (fun s => s.name = "fr77")).take 1 :=
  claim2_dedup_first_occurrence [c2ServerA, c2ServerB] "fr77" (by decide)

/-- Decimal digits of a natural number (fuel-driven so it reduces
definitionally); models Python's decimal rendering of a non-negative int
inside an f-string. -/
def natToDecAux : Nat → Nat → List Char
  | 0, _ => []
  | fuel+1, n =>
      if n < 10 then [Nat.digitChar n]
      else natToDecAux fuel (n / 10) ++ [Nat.digitChar (n % 10)]

/-- Decimal character list of `n`. -/
def natToDecChars (n : Nat) : List Char := natToDecAux (n + 1) n

/-- Numeric value of a decimal digit character. -/
def decDigit (c : Char) : Nat := c.toNat - 48

/-- Value of a decimal digit string, used to invert `natToDecChars`. -/
def decValue (l : List Char) : Nat := l.foldl (fun acc c => acc * 10 + decDigit c) 0

theorem decValue_append_digit (l : List Char) (c : Char) :
    decValue (l ++ [c]) = decValue l * 10 + decDigit c := by
  simp [decValue, List.foldl_append]

theorem decDigit_digitChar (n : Nat) (h : n < 10) : decDigit (Nat.digitChar n) = n := by
  interval_cases n <;> rfl

theorem decValue_natToDecAux (fuel : Nat) : ∀ n, n < fuel →
    decValue (natToDecAux fuel n) = n := by
  induction fuel with
  | zero => intro n h; omega
  | succ f ih =>
      intro n h
      by_cases h10 : n < 10
      · rw [natToDecAux, if_pos h10]
        simp [decValue, List.foldl, decDigit_digitChar n h10]
      · rw [natToDecAux, if_neg h10, decValue_append_digit]
        have h1 : n / 10 < n := Nat.div_lt_self (by omega) (by omega)
        have hdiv : n / 10 < f := by omega
        rw [ih (n / 10) hdiv, decDigit_digitChar (n % 10) (Nat.mod_lt n (by omega))]
        omega

theorem decValue_natToDecChars (n : Nat) : decValue (natToDecChars n) = n :=
  decValue_natToDecAux (n + 1) n (Nat.lt_succ_self n)

theorem natToDecChars_injective : Function.Injective natToDecChars := by
  intro a b h
  have h2 := congrArg decValue h
  simpa [decValue_natToDecChars] using h2

theorem natToDecChars_ne_nil (n : Nat) : natToDecChars n ≠ [] := by
  unfold natToDecChars natToDecAux
  by_cases h10 : n < 10 <;> simp [h10]

/-- The suffixed relative path built by `_create_batch_save_tasks` line 376:
the f-string of `base_path_no_ext` (which is `rel_path[:-5]`, i.e. all but
the last five characters), an underscore, the decimal index and `.conf`. -/
def sufPath (rel : String) (idx : Nat) : String :=
  ⟨(rel.data.take (rel.data.length - 5)) ++ '_' :: (natToDecChars idx ++ ".conf".data)⟩

theorem sufPath_length (rel : String) (idx : Nat) :
    rel.data.length < (sufPath rel idx).data.length := by
  show rel.data.length <
    ((rel.data.take (rel.data.length - 5)) ++ '_' :: (natToDecChars idx ++ ".conf".data)).length
  have hd : 1 ≤ (natToDecChars idx).length :=
    List.length_pos.mpr (natToDecChars_ne_nil idx)
  simp [List.length_append, List.length_take]
  omega

theorem sufPath_ne_rel (rel : String) (idx : Nat) : sufPath rel idx ≠ rel := by
  intro h
  have h2 : (sufPath rel idx).data.length = rel.data.length := by rw [h]
  have h3 := sufPath_length rel idx
  omega

theorem sufPath_injective (rel : String) : Function.Injective (sufPath rel) := by
  intro a b h
  have h2 : (sufPath rel a).data = (sufPath rel b).data := congrArg String.data h
  show a = b
  simp only [sufPath] at h2
  have h3 := List.append_cancel_left h2
  have h4 : natToDecChars a ++ ".conf".data = natToDecChars b ++ ".conf".data := by
    injection h3
  exact natToDecChars_injective (List.append_cancel_right h4)

/-- Dict lookup for the `used_paths` registry. -/
def lookupNat (k : String) : List (String × Nat) → Option Nat
  | [] => none
  | (k', v) :: rest => if k' = k then some v else lookupNat k rest

/-- Dict assignment `used_paths[k] = v`: update in place, else append. -/
def setKey (k : String) (v : Nat) : List (String × Nat) → List (String × Nat)
  | [] => [(k, v)]
  | (k', v') :: rest => if k' = k then (k', v) :: rest else (k', v') :: setKey k v rest

/-- The `while True` search of `_create_batch_save_tasks` (lines 375-382):
try suffix indices upward until one is not registered.  Fuel bounds the
search; with `used.length + 1` fuel the loop of the source always terminates
within the modelled bound whenever it terminates at all. -/
def findFree (used : List (String × Nat)) (rel : String) : Nat → Nat → Option Nat
  | _, 0 => none
  | idx, fuel+1 =>
      if (lookupNat (sufPath rel idx) used).isSome then findFree used rel (idx + 1) fuel
      else some idx

/-- Path allocation for one server in `_create_batch_save_tasks`
(lines 366-385): produce the base relative path if it is unused, otherwise
the first free suffixed path, updating the registry exactly as the source
does (`used_paths[rel_path] = idx + 1` then `used_paths[new_rel] = 0`). -/
def allocPath (used : List (String × Nat)) (rel : String) :
    Option (String × List (String × Nat)) :=
  match lookupNat rel used with
  | none => some (rel, setKey rel 0 used)
  | some i =>
      match findFree used rel (if i = 0 then 1 else i) (used.length + 1) with
      | none => none
      | some idx =>
          some (sufPath rel idx, setKey (sufPath rel idx) 0 (setKey rel (idx + 1) used))

/-- Sequential allocation over the servers of one run, in processing order. -/
def allocAll (used : List (String × Nat)) : List String → Option (List String × List (String × Nat))
  | [] => some ([], used)
  | r :: rs =>
      match allocPath used r with
      | none => none
      | some (p, used') =>
          match allocAll used' rs with
          | none => none
          | some (ps, u) => some (p :: ps, u)

/-- Registry contents after the base path and `k` duplicates of `rel` have
been processed. -/
def usedState (rel : String) (k : Nat) : List (String × Nat) :=
  (rel, if k = 0 then 0 else k + 1) :: (List.range k).map (fun j => (sufPath rel (j + 1), 0))

theorem lookupNat_eq_none (key : String) (l : List (String × Nat))
    (h : ∀ p ∈ l, p.1 ≠ key) : lookupNat key l = none := by
  induction l with
  | nil => rfl
  | cons p rest ih =>
      obtain ⟨k', v⟩ := p
      rw [lookupNat, if_neg (h (k', v) (by simp))]
      exact ih fun q hq => h q (by simp [hq])

theorem lookupNat_sufPath_usedState (rel : String) (k i : Nat) (h : k < i) :
    lookupNat (sufPath rel i) (usedState rel k) = none := by
  apply lookupNat_eq_none
  intro p hp
  rw [usedState] at hp
  rcases List.mem_cons.mp hp with rfl | hp'
  · exact fun he => sufPath_ne_rel rel i he.symm
  · obtain ⟨j, hj, rfl⟩ := List.mem_map.mp hp'
    intro he
    have h2 := sufPath_injective rel he
    have hj' := List.mem_range.mp hj
    omega

theorem setKey_append_of_not_mem (k : String) (v : Nat) (l : List (String × Nat))
    (h : ∀ p ∈ l, p.1 ≠ k) : setKey k v l = l ++ [(k, v)] := by
  induction l with
  | nil => rfl
  | cons p rest ih =>
      obtain ⟨k', v'⟩ := p
      rw [setKey, if_neg (h (k', v') (by simp))]
      rw [ih fun q hq => h q (by simp [hq])]
      rfl

theorem usedState_length (rel : String) (k : Nat) : (usedState rel k).length = k + 1 := by
  simp [usedState]

theorem allocPath_usedState (rel : String) (k : Nat) :
    allocPath (usedState rel k) rel = some (sufPath rel (k + 1), usedState rel (k + 1)) := by
  have hlook : lookupNat rel (usedState rel k) = some (if k = 0 then 0 else k + 1) := by
    simp [usedState, lookupNat]
  have hfree : findFree (usedState rel k) rel (k + 1) ((usedState rel k).length + 1) =
      some (k + 1) := by
    rw [usedState_length]
    show findFree (usedState rel k) rel (k + 1) ((k + 1) + 1) = some (k + 1)
    rw [findFree, lookupNat_sufPath_usedState rel k (k + 1) (by omega)]
    rfl
  have hidx : (if (if k = 0 then 0 else k + 1) = 0 then 1 else (if k = 0 then 0 else k + 1)) =
      k + 1 := by
    by_cases hk : k = 0 <;> simp [hk]
  have hset1 : setKey rel (k + 1 + 1) (usedState rel k) =
      (rel, k + 2) :: (List.range k).map (fun j => (sufPath rel (j + 1), 0)) := by
    simp [usedState, setKey]
  have hset2 : setKey (sufPath rel (k + 1)) 0
      ((rel, k + 2) :: (List.range k).map (fun j => (sufPath rel (j + 1), 0))) =
      (rel, k + 2) ::
        ((List.range k).map (fun j => (sufPath rel (j + 1), 0)) ++ [(sufPath rel (k + 1), 0)]) := by
    rw [setKey, if_neg (fun he => sufPath_ne_rel rel (k + 1) he.symm)]
    rw [setKey_append_of_not_mem]
    intro p hp
    obtain ⟨j, hj, rfl⟩ := List.mem_map.mp hp
    intro he
    have h2 := sufPath_injective rel he
    have hj' := List.mem_range.mp hj
    omega
  have hstate : usedState rel (k + 1) =
      (rel, k + 2) ::
        ((List.range k).map (fun j => (sufPath rel (j + 1), 0)) ++ [(sufPath rel (k + 1), 0)]) := by
    rw [usedState]
    simp [List.range_succ]
  rw [allocPath.eq_def, hlook]
  simp only [hidx, hfree, hset1, hset2, hstate]

theorem allocAll_usedState (rel : String) : ∀ m k,
    allocAll (usedState rel k) (List.replicate m rel) =
      some ((List.range m).map (fun j => sufPath rel (k + 1 + j)), usedState rel (k + m)) := by
  intro m
  induction m with
  | zero => intro k; simp [allocAll, List.replicate]
  | succ m ih =>
      intro k
      rw [List.replicate_succ]
      rw [allocAll.eq_def]
      simp only [allocPath_usedState, ih (k + 1)]
      have hstate : k + 1 + m = k + (m + 1) := by omega
      have hlist : sufPath rel (k + 1) ::
          (List.range m).map (fun j => sufPath rel (k + 1 + 1 + j)) =
          (List.range (m + 1)).map (fun j => sufPath rel (k + 1 + j)) := by
        rw [List.range_succ_eq_map, List.map_cons, List.map_map]
        refine congrArg₂ List.cons rfl ?_
        apply List.map_congr_left
        intro j _
        show sufPath rel (k + 1 + 1 + j) = sufPath rel (k + 1 + (j + 1))
        rw [show k + 1 + 1 + j = k + 1 + (j + 1) by omega]
      rw [hstate, hlist]

/-- C3: if `N ≥ 1` servers compute the identical relative path within one
run, `_create_batch_save_tasks` produces `N` pairwise-distinct relative
paths: the first keeps the unsuffixed path, duplicate `k` receives the stem
suffixed with `_k` (in processing order), and every produced path is
registered, so the produced list has no repeats. -/
theorem claim3_path_collision_suffixes (rel : String) (N : Nat) (h : 1 ≤ N) :
    ∃ u, allocAll [] (List.replicate N rel) =
        some (rel :: (List.range (N - 1)).map (fun k => sufPath rel (k + 1)), u) ∧
      (rel :: (List.range (N - 1)).map (fun k => sufPath rel (k + 1))).Nodup ∧
      (rel :: (List.range (N - 1)).map (fun k => sufPath rel (k + 1))).length = N := by
  obtain ⟨M, rfl⟩ : ∃ M, N = M + 1 := ⟨N - 1, by omega⟩
  have hM : M + 1 - 1 = M := by omega
  rw [hM]
  refine ⟨usedState rel M, ?_, ?_, ?_⟩
  · rw [List.replicate_succ]
    rw [allocAll.eq_def]
    have h0 : allocPath [] rel = some (rel, usedState rel 0) := by
      rw [allocPath.eq_def]
      show (match lookupNat rel [] with
        | none => some (rel, setKey rel 0 [])
        | some i =>
            match findFree [] rel (if i = 0 then 1 else i) ([] : List (String × Nat)).length.succ with
            | none => none
            | some idx => some (sufPath rel idx, setKey (sufPath rel idx) 0 (setKey rel (idx + 1) []))) =
        some (rel, usedState rel 0)
      simp [lookupNat, setKey, usedState]
    simp only [h0, allocAll_usedState rel M 0]
    have hzero : (0 : Nat) + M = M := by omega
    have hlist : (List.range M).map (fun j => sufPath rel (0 + 1 + j)) =
        (List.range M).map (fun k => sufPath rel (k + 1)) := by
      apply List.map_congr_left
      intro j _
      rw [show 0 + 1 + j = j + 1 by omega]
    rw [hzero, hlist]
  · rw [List.nodup_cons]
    constructor
    · intro hmem
      obtain ⟨j, _, he⟩ := List.mem_map.mp hmem
      exact sufPath_ne_rel rel (j + 1) he
    · refine List.Nodup.map ?_ (List.nodup_range _)
      intro a b hab
      have h2 := sufPath_injective rel hab
      omega
  · simp

/-- C3 witness: three servers with the same computed path get the base path
and the `_1`, `_2` suffixed variants, all distinct. -/
theorem claim3_witness :
    ∃ u, allocAll [] (List.replicate 3 "configs/standard/europe/germany/berlin/de1000_Standard.conf") =
        some ("configs/standard/europe/germany/berlin/de1000_Standard.conf" ::
          (List.range 2).map
            (fun k => sufPath "configs/standard/europe/germany/berlin/de1000_Standard.conf" (k + 1)), u) ∧
      ("configs/standard/europe/germany/berlin/de1000_Standard.conf" ::
        (List.range 2).map
          (fun k => sufPath "configs/standard/europe/germany/berlin/de1000_Standard.conf" (k + 1))).Nodup ∧
      ("configs/standard/europe/germany/berlin/de1000_Standard.conf" ::
        (List.range 2).map
          (fun k => sufPath "configs/standard/europe/germany/berlin/de1000_Standard.conf" (k + 1))).length = 3 :=
  claim3_path_collision_suffixes "configs/standard/europe/germany/berlin/de1000_Standard.conf" 3
    (by decide)

/-- ASCII uppercase test (code points 65-90). -/
def isUpperAZ (c : Char) : Bool := 65 ≤ c.toNat && c.toNat ≤ 90

/-- ASCII lowercase test (code points 97-122). -/
def isLowerAZ (c : Char) : Bool := 97 ≤ c.toNat && c.toNat ≤ 122

/-- Python `str.lower`, per character, restricted to ASCII. -/
def pyLower (c : Char) : Char := if isUpperAZ c then Char.ofNat (c.toNat + 32) else c

/-- Python `str.upper`, per character, restricted to ASCII. -/
def pyUpper (c : Char) : Char := if isLowerAZ c then Char.ofNat (c.toNat - 32) else c

/-- The characters deleted by the `str.maketrans` table `_path_sanitizer`
(main.py line 267). -/
def illegalPathChars : List Char :=
  ['<', '>', ':', '"', '/', '\\', '|', '?', '*', Char.ofNat 0]

/-- `_sanitize_path_part` (main.py lines 568-570) on character lists:
`part.lower().replace(' ', '_').replace('#', '').translate(_path_sanitizer)`. -/
def sanitizeChars (l : List Char) : List Char :=
  ((((l.map pyLower).map (fun c => if c = ' ' then '_' else c)).filter
      (fun c => c != '#')).filter (fun c => !(illegalPathChars.contains c)))

/-- `_sanitize_path_part` on strings. -/
def sanitizePathPart (s : String) : String := ⟨sanitizeChars s.data⟩

theorem isUpperAZ_pyLower (c : Char) : isUpperAZ (pyLower c) = false := by
  rw [pyLower]
  by_cases h : isUpperAZ c
  · rw [if_pos h]
    rw [isUpperAZ] at h
    simp only [Bool.and_eq_true, decide_eq_true_eq] at h
    obtain ⟨h1, h2⟩ := h
    set n := c.toNat with hn
    interval_cases n <;> decide
  · rw [if_neg h]
    simpa using h

theorem pyLower_of_not_upper (c : Char) (h : isUpperAZ c = false) : pyLower c = c := by
  rw [pyLower, if_neg (by simp [h])]

theorem sanitizeChars_mem (l : List Char) (c : Char) (hc : c ∈ sanitizeChars l) :
    isUpperAZ c = false ∧ c ≠ ' ' ∧ c ≠ '#' ∧ illegalPathChars.contains c = false := by
  rw [sanitizeChars, List.map_map] at hc
  have h2 := List.of_mem_filter hc
  have hc1 := List.mem_of_mem_filter hc
  have h1 := List.of_mem_filter hc1
  have hc2 := List.mem_of_mem_filter hc1
  obtain ⟨a, _, ha⟩ := List.mem_map.mp hc2
  have hform : c = if pyLower a = ' ' then '_' else pyLower a := ha.symm
  refine ⟨?_, ?_, by simpa using h1, by simpa using h2⟩
  · by_cases hsp : pyLower a = ' '
    · rw [hform, if_pos hsp]
      decide
    · rw [hform, if_neg hsp]
      exact isUpperAZ_pyLower a
  · by_cases hsp : pyLower a = ' '
    · rw [hform, if_pos hsp]
      decide
    · rw [hform, if_neg hsp]
      exact hsp


theorem sanitizeChars_clean (m : List Char)
    (h : ∀ c ∈ m, isUpperAZ c = false ∧ c ≠ ' ' ∧ c ≠ '#' ∧
      illegalPathChars.contains c = false) :
    sanitizeChars m = m := by
  induction m with
  | nil => rfl
  | cons c cs ih =>
      obtain ⟨h1, h2, h3, h4⟩ := h c (by simp)
      have ih' := ih fun d hd => h d (by simp [hd])
      rw [sanitizeChars] at ih' ⊢
      rw [List.map_cons, pyLower_of_not_upper c h1, List.map_cons, if_neg h2,
        List.filter_cons, if_pos (by simpa using h3), List.filter_cons,
        if_pos (by simp only [Bool.not_eq_true']; exact h4), ih']

/-- C10: the path-component sanitizer `_sanitize_path_part` is idempotent,
and its output contains no spaces, no ASCII uppercase letters and none of
the filesystem-illegal characters deleted by its translation table. -/
theorem claim10_sanitize_idempotent (s : String) :
    sanitizePathPart (sanitizePathPart s) = sanitizePathPart s ∧
    ∀ c ∈ (sanitizePathPart s).data,
      isUpperAZ c = false ∧ c ≠ ' ' ∧ c ∉ illegalPathChars := by
  constructor
  · show (⟨sanitizeChars (sanitizeChars s.data)⟩ : String) = ⟨sanitizeChars s.data⟩
    rw [sanitizeChars_clean (sanitizeChars s.data) (fun c hc => sanitizeChars_mem s.data c hc)]
  · intro c hc
    obtain ⟨h1, h2, _, h4⟩ := sanitizeChars_mem s.data c hc
    refine ⟨h1, h2, ?_⟩
    intro hmem
    have h5 : illegalPathChars.contains c = true := by
      unfold List.contains
      exact List.elem_eq_true_of_mem hmem
    rw [h5] at h4
    cases h4

/-- C10 witness: the sanitizer applied to a concrete string containing an
uppercase letter, a space and a slash; the membership hypothesis is
discharged by evaluation. -/
theorem claim10_witness :
    isUpperAZ 'a' = false ∧ 'a' ≠ ' ' ∧ 'a' ∉ illegalPathChars :=
  (claim10_sanitize_idempotent "A b/c#").2 'a' (by decide)

/-- Python `math.radians`: degrees to radians. -/
noncomputable def pyRadians (x : ℝ) : ℝ := x * (Real.pi / 180)

/-- `_calculate_distance` (main.py lines 559-566): haversine distance with
Earth radius 6371 km; float arithmetic idealized over the real numbers. -/
noncomputable def calculateDistance (lat1 lon1 lat2 lon2 : ℝ) : ℝ :=
  2 * Real.arcsin (Real.sqrt
      (Real.sin ((pyRadians lat2 - pyRadians lat1) / 2) ^ 2 +
        Real.cos (pyRadians lat1) * Real.cos (pyRadians lat2) *
          Real.sin ((pyRadians lon2 - pyRadians lon1) / 2) ^ 2)) * 6371

theorem sin_half_sub_sq_comm (x y : ℝ) :
    Real.sin ((x - y) / 2) ^ 2 = Real.sin ((y - x) / 2) ^ 2 := by
  rw [show (x - y) / 2 = -((y - x) / 2) by ring, Real.sin_neg, neg_sq]

/-- C9: the geo distance function is symmetric, zero on equal coordinate
pairs, and non-negative. -/
theorem claim9_distance_properties (lat1 lon1 lat2 lon2 : ℝ) :
    calculateDistance lat1 lon1 lat2 lon2 = calculateDistance lat2 lon2 lat1 lon1 ∧
    calculateDistance lat1 lon1 lat1 lon1 = 0 ∧
    0 ≤ calculateDistance lat1 lon1 lat2 lon2 := by
  refine ⟨?_, ?_, ?_⟩
  · unfold calculateDistance
    rw [sin_half_sub_sq_comm (pyRadians lat2) (pyRadians lat1),
      sin_half_sub_sq_comm (pyRadians lon2) (pyRadians lon1),
      mul_comm (Real.cos (pyRadians lat1)) (Real.cos (pyRadians lat2))]
  · simp [calculateDistance]
  · unfold calculateDistance
    apply mul_nonneg (mul_nonneg (by norm_num) ?_) (by norm_num)
    exact Real.arcsin_nonneg.mpr (Real.sqrt_nonneg _)

/-- The `UserPreferences` dataclass (main.py lines 43-53). -/
structure UserPreferences where
  dns : String := "103.86.96.100"
  use_ip_for_endpoint : Bool := false
  persistent_keepalive : Int := 25
  server_types : Option (List String) := none
  regions : Option (List String) := none
  countries : Option (List String) := none
  cities : Option (List String) := none
  max_load : Int := 100
deriving DecidableEq, Repr

/-- The dynamic value found under the `load` key of a raw record: a JSON
integer, a JSON string, or key absent (in which case `.get('load', 0)`
substitutes 0). -/
inductive LoadVal where
  | num (n : Int)
  | str (s : String)
  | absent
deriving DecidableEq, Repr

/-- Value of a run of ASCII digits; `none` as soon as a non-digit occurs. -/
def decDigitsValAux : List Char → Nat → Option Nat
  | [], acc => some acc
  | c :: rest, acc =>
      if 48 ≤ c.toNat ∧ c.toNat ≤ 57 then decDigitsValAux rest (acc * 10 + (c.toNat - 48))
      else none

/-- Python `int` applied to a string: an optional minus sign followed by at
least one ASCII digit (further int-literal niceties are not modelled). -/
def pyIntOfString (s : String) : Option Int :=
  match s.data with
  | [] => none
  | '-' :: rest =>
      match rest with
      | [] => none
      | _ => (decDigitsValAux rest 0).map fun n => -(n : Int)
  | l => (decDigitsValAux l 0).map fun n => (n : Int)

/-- `int(server_data.get('load', 0))` (line 502): an int passes through, the
absent-key default 0 passes through, a string must parse as a decimal
integer or `int` raises `ValueError`. -/
def pyInt : LoadVal → Except PyExc Int
  | .num n => .ok n
  | .absent => .ok 0
  | .str s =>
      match pyIntOfString s with
      | some n => .ok n
      | none => .error .valueError

/-- A `groups[i]` entry; `identifier` is read with `.get`, so a missing key
becomes `none` without raising. -/
structure RawGroup where
  identifier : Option String
deriving DecidableEq, Repr

/-- A technology metadata entry; `m['name']` and `m['value']` raise
`KeyError` when the key is missing (modelled by `none`). -/
structure RawMeta where
  name : Option String
  value : Option String
deriving DecidableEq, Repr

/-- A technology entry; `t['identifier']` and `t['metadata']` raise
`KeyError` when missing. -/
structure RawTech where
  identifier : Option String
  metadata : Option (List RawMeta)
deriving DecidableEq, Repr

/-- The `country.city` sub-record; its `name` is read with
`.get('name', 'Unknown')`. -/
structure RawCity where
  name : Option String
deriving DecidableEq, Repr

/-- The `country` sub-record; `name` and `code` are read with `[...]`
(raising `KeyError` when missing), `city` with `.get('city', {})`. -/
structure RawCountry where
  name : Option String
  code : Option String
  city : Option RawCity
deriving DecidableEq, Repr

/-- A `locations[i]` entry; all three keys are read with `[...]`. -/
structure RawLocation where
  country : Option RawCountry
  latitude : Option ℚ
  longitude : Option ℚ
deriving DecidableEq, Repr

/-- One raw server record as consumed by `_parse_server_data`: `Option`
models dict keys that may be missing, `groups` uses `.get('groups', [])`
and `load` holds the dynamic value described at `LoadVal`. -/
structure RawServer where
  name : Option String
  hostname : Option String
  station : Option String
  load : LoadVal
  locations : Option (List RawLocation)
  technologies : Option (List RawTech)
  groups : List RawGroup
deriving DecidableEq, Repr

/-- The inner metadata loop of the public-key generator (lines 523-524):
yield the first `public_key` entry's value; `m['name']`/`m['value']` raise
`KeyError` when missing. -/
def findKeyInMeta : List RawMeta → Except PyExc (Option String)
  | [] => .ok none
  | m :: rest =>
      match m.name with
      | none => .error .keyError
      | some nm =>
          if nm = "public_key" then
            match m.value with
            | none => .error .keyError
            | some v => .ok (some v)
          else findKeyInMeta rest

/-- The `next(...)` generator of lines 521-525: scan the technologies for
`wireguard_udp` entries and take the first `public_key` metadata value;
exhaustion raises `StopIteration`. -/
def findPublicKey : List RawTech → Except PyExc String
  | [] => .error .stopIteration
  | t :: rest =>
      match t.identifier with
      | none => .error .keyError
      | some tid =>
          if tid = "wireguard_udp" then
            match t.metadata with
            | none => .error .keyError
            | some ms =>
                match findKeyInMeta ms with
                | .error e => .error e
                | .ok (some v) => .ok v
                | .ok none => findPublicKey rest
          else findPublicKey rest

/-- The backward-compatibility `type_mapping` of lines 480-485. -/
def typeMapping (t : String) : String :=
  if t = "standard" then "legacy_standard"
  else if t = "p2p" then "legacy_p2p"
  else if t = "dedicated_ip" then "legacy_dedicated_ip"
  else t

/-- The server-type filter block (lines 475-493): active whenever
`preferences.server_types is not None`, even when the list is empty. -/
def typeFilterAccepts (serverTypes : Option (List String)) (ids : List (Option String)) : Bool :=
  match serverTypes with
  | none => true
  | some ts => ts.any fun t => ids.contains (some (typeMapping t))

/-- The region filter block (lines 496-499): guarded by Python truthiness
(`if preferences.regions:`), so both `None` and `[]` skip it. -/
def regionFilterAccepts (regions : Option (List String)) (ids : List (Option String)) : Bool :=
  match regions with
  | none => true
  | some rs => if rs.isEmpty then true else rs.any fun rg => ids.contains (some rg)

/-- The country filter block (lines 510-512): truthiness-guarded; when
active it reads `country_info['name']`, raising `KeyError` if absent. -/
def countryFilterCheck (countries : Option (List String)) (name : Option String) :
    Except PyExc Bool :=
  match countries with
  | none => .ok true
  | some cs =>
      if cs.isEmpty then .ok true
      else
        match name with
        | none => .error .keyError
        | some nm => .ok (cs.contains nm)

/-- The city filter block (lines 516-518): truthiness-guarded. -/
def cityFilterAccepts (cities : Option (List String)) (cityName : String) : Bool :=
  match cities with
  | none => true
  | some cs => if cs.isEmpty then true else cs.contains cityName

/-- `country_info.get('city', {}).get('name', 'Unknown')` (lines 515, 550). -/
def cityNameOf (c : RawCountry) : String :=
  match c.city with
  | none => "Unknown"
  | some ci => ci.name.getD "Unknown"

/-- Python `str.startswith` through character lists. -/
def strStartsWith (pre s : String) : Bool := pre.data.isPrefixOf s.data

/-- Python substring containment (`pat in s`) on character lists. -/
def containsSub (pat : List Char) : List Char → Bool
  | [] => pat.isEmpty
  | c :: rest => pat.isPrefixOf (c :: rest) || containsSub pat rest

/-- Python `str.split(sep)` for a one-character separator. -/
def splitOnChar (sep : Char) : List Char → List (List Char)
  | [] => [[]]
  | c :: rest =>
      match splitOnChar sep rest with
      | [] => [[c]]
      | w :: ws => if c = sep then [] :: w :: ws else (c :: w) :: ws

/-- Python `str.capitalize`: first character uppercased, the rest lowered. -/
def pyCapitalize : List Char → List Char
  | [] => []
  | c :: rest => pyUpper c :: rest.map pyLower

/-- Python `str.replace(pat, '')`: delete non-overlapping occurrences of
`pat`, scanning left to right (fuel-driven to stay structural). -/
def removePatAux (pat : List Char) : Nat → List Char → List Char
  | 0, l => l
  | _ + 1, [] => []
  | fuel + 1, c :: rest =>
      if pat.isPrefixOf (c :: rest) then removePatAux pat fuel ((c :: rest).drop pat.length)
      else c :: removePatAux pat fuel rest

/-- Entry point of the pattern deletion with sufficient fuel. -/
def removePat (pat l : List Char) : List Char := removePatAux pat (l.length + 1) l

/-- `format_type_name` (lines 434-445): strip the `legacy_` marker, split on
underscores, uppercase words of length at most 3, capitalize longer words,
rejoin with underscores. -/
def formatTypeName (typeId : String) : String :=
  ⟨List.intercalate ['_'] ((splitOnChar '_' (removePat "legacy_".data typeId.data)).map
      fun w => if w.length ≤ 3 then w.map pyUpper else pyCapitalize w)⟩

/-- The continent keywords of lines 133 and 538. -/
def regionKeywords : List String := ["europe", "america", "asia", "africa"]

/-- Region display formatting (line 543): capitalize each underscore
separated word of the group identifier. -/
def formatRegion (g : String) : String :=
  ⟨List.intercalate ['_'] ((splitOnChar '_' g.data).map pyCapitalize)⟩

/-- The region scan of lines 538-544: the first group identifier containing
a region keyword wins; iteration order of the Python set is modelled as the
encounter order of the groups list. -/
def regionScan : List String → String
  | [] => "Unknown"
  | g :: rest =>
      if regionKeywords.any (fun kw => containsSub kw.data g.data) then formatRegion g
      else regionScan rest

/-- `_determine_server_type` (lines 425-466) once every identifier is known
to be present (`startswith` on a missing identifier would have raised).  The
Python set of legacy identifiers is modelled as the encounter-ordered list;
`if user_selected_types:` is truthiness, so `None` and `[]` both skip the
restriction, and `if type_priority:` makes an empty priority fall through to
the first remaining legacy type. -/
def determineServerType (ids : List String) (typePriority : List String)
    (userSelectedTypes : Option (List String)) : String :=
  let legacy := ids.filter fun g => strStartsWith "legacy_" g
  let legacy2 :=
    match userSelectedTypes with
    | some us => if us.isEmpty then legacy else legacy.filter fun t => us.contains t
    | none => legacy
  match legacy2 with
  | [] => "Other"
  | t0 :: _ =>
      match typePriority.find? (fun t => legacy2.contains t) with
      | some t => formatTypeName t
      | none => formatTypeName t0

/-- `{g.get('identifier') for g in groups}` feeds `g.startswith('legacy_')`
inside `_determine_server_type`; a `None` member raises `AttributeError`.
`allPresent` returns the identifiers when none is missing. -/
def allPresent : List (Option String) → Option (List String)
  | [] => some []
  | none :: _ => none
  | some s :: rest => (allPresent rest).map fun l => s :: l

/-- The body of the `try` block of `_parse_server_data` (lines 470-555), in
source order: type filter, region filter, load conversion and comparison,
location/country access, country filter, city filter, public-key search,
latitude/longitude access for the distance call, type determination (with
its `AttributeError` hazard), region scan, `Server` construction.
`Except.error e` means exception `e` was raised.  The distance function is a
parameter because float trigonometry sits outside the computable fragment. -/
def parseServerBody (dist : ℚ → ℚ → ℚ → ℚ → ℚ) (userLoc : ℚ × ℚ)
    (prefs : UserPreferences) (typePriority : List String) (r : RawServer) :
    Except PyExc (Option Server) :=
  if typeFilterAccepts prefs.server_types (r.groups.map fun g => g.identifier) then
    if regionFilterAccepts prefs.regions (r.groups.map fun g => g.identifier) then
      match pyInt r.load with
      | .error e => .error e
      | .ok serverLoad =>
          if serverLoad > prefs.max_load then .ok none
          else
            match r.locations with
            | none => .error .keyError
            | some [] => .error .indexError
            | some (loc :: _) =>
                match loc.country with
                | none => .error .keyError
                | some countryInfo =>
                    match countryFilterCheck prefs.countries countryInfo.name with
                    | .error e => .error e
                    | .ok false => .ok none
                    | .ok true =>
                        if cityFilterAccepts prefs.cities (cityNameOf countryInfo) then
                          match r.technologies with
                          | none => .error .keyError
                          | some techs =>
                              match findPublicKey techs with
                              | .error e => .error e
                              | .ok pk =>
                                  match loc.latitude, loc.longitude with
                                  | none, _ => .error .keyError
                                  | some _, none => .error .keyError
                                  | some lat, some lon =>
                                      match allPresent (r.groups.map fun g => g.identifier) with
                                      | none => .error .attributeError
                                      | some presentIds =>
                                          match r.name, r.hostname, r.station,
                                              countryInfo.name, countryInfo.code with
                                          | some nm, some hn, some st, some cname, some code =>
                                              .ok (some
                                                { name := nm, hostname := hn, station := st,
                                                  load := serverLoad, country := cname,
                                                  country_code := ⟨code.data.map pyLower⟩,
                                                  city := cityNameOf countryInfo,
                                                  region := regionScan presentIds,
                                                  server_type := determineServerType presentIds
                                                    typePriority prefs.server_types,
                                                  latitude := lat, longitude := lon,
                                                  public_key := pk,
                                                  distance := dist userLoc.1 userLoc.2 lat lon })
                                          | _, _, _, _, _ => .error .keyError
                        else .ok none
    else .ok none
  else .ok none

/-- `_parse_server_data` with its `except (KeyError, IndexError,
StopIteration)` clause: those three exceptions become the rejection `None`;
any other exception escapes the parser. -/
def parseServerData (dist : ℚ → ℚ → ℚ → ℚ → ℚ) (userLoc : ℚ × ℚ)
    (prefs : UserPreferences) (typePriority : List String) (r : RawServer) :
    Except PyExc (Option Server) :=
  match parseServerBody dist userLoc prefs typePriority r with
  | .ok v => .ok v
  | .error .keyError => .ok none
  | .error .indexError => .ok none
  | .error .stopIteration => .ok none
  | .error e => .error e

/-- The country sub-record of the C4/C6 sample record. -/
def c4Country : RawCountry :=
  { name := some "Germany", code := some "DE", city := some { name := some "Berlin" } }

/-- The location sub-record of the C4/C6 sample record. -/
def c4Location : RawLocation :=
  { country := some c4Country, latitude := some 52, longitude := some 13 }

/-- The wireguard technology entry of the C4/C6 sample record. -/
def c4Tech : RawTech :=
  { identifier := some "wireguard_udp",
    metadata := some [{ name := some "public_key", value := some "KEY" }] }

/-- A fully well-formed raw record used by the C4 counterexample. -/
def c4Record : RawServer :=
  { name := some "de1000", hostname := some "de1000.nordvpn.com",
    station := some "1.2.3.4", load := .num 10,
    locations := some [c4Location],
    technologies := some [c4Tech],
    groups := [{ identifier := some "legacy_standard" }, { identifier := some "europe" }] }

/-- C4 counterexample: with an empty `serverTypes` collection and every
other dimension absent, a fully valid record is rejected by the filter
(the same record parses successfully when `serverTypes` is absent), so the
claim that an empty collection is a no-op fails on the serverTypes
dimension. -/
theorem claim4_counterexample :
    parseServerData (fun _ _ _ _ => 0) (0, 0) { server_types := some [] } [] c4Record =
      .ok none ∧
    parseServerData (fun _ _ _ _ => 0) (0, 0) {} [] c4Record ≠ .ok none := by
  decide

/-- C4 (amended): an absent (None) dimension accepts every record on that
dimension, and empty `regions`/`countries`/`cities` collections also accept
every record; but an empty `serverTypes` collection rejects every record,
because that dimension is guarded by `is not None` instead of truthiness. -/
theorem claim4_filter_dimensions :
    (∀ ids, typeFilterAccepts none ids = true) ∧
    (∀ ids, regionFilterAccepts none ids = true) ∧
    (∀ ids, regionFilterAccepts (some []) ids = true) ∧
    (∀ nm, countryFilterCheck none nm = .ok true) ∧
    (∀ nm, countryFilterCheck (some []) nm = .ok true) ∧
    (∀ cn, cityFilterAccepts none cn = true) ∧
    (∀ cn, cityFilterAccepts (some []) cn = true) ∧
    (∀ ids, typeFilterAccepts (some []) ids = false) :=
  ⟨fun _ => rfl, fun _ => rfl, fun _ => rfl, fun _ => rfl, fun _ => rfl,
    fun _ => rfl, fun _ => rfl, fun _ => rfl⟩

/-- The C6 failing input: the C4 record with a non-numeric string in the
`load` field. -/
def c6Record : RawServer := { c4Record with load := .str "unavailable" }

/-- C6 (code bug): `int(...)` on a non-numeric load raises `ValueError`,
which the `except (KeyError, IndexError, StopIteration)` clause does not
catch, so the exception escapes `_parse_server_data` instead of being
absorbed as the spec's propagation policy requires. -/
theorem claim6_load_valueerror_escapes :
    parseServerData (fun _ _ _ _ => 0) (0, 0) {} [] c6Record = .error .valueError := by
  decide

/-- The record's technologies contain a `wireguard_udp` entry with a
metadata entry named `public_key` (the spec's search condition). -/
def hasWireguardKey (techs : List RawTech) : Bool :=
  techs.any fun t =>
    (t.identifier == some "wireguard_udp") &&
      ((t.metadata.getD []).any fun m => m.name == some "public_key")

theorem pyInt_error (lv : LoadVal) (e : PyExc) (h : pyInt lv = .error e) :
    e = .valueError := by
  cases lv with
  | num n => cases h
  | absent => cases h
  | str s =>
      rw [pyInt] at h
      cases hp : pyIntOfString s with
      | some n => rw [hp] at h; cases h
      | none => rw [hp] at h; exact (Except.error.inj h).symm

theorem countryFilterCheck_error (cs : Option (List String)) (nm : Option String) (e : PyExc)
    (h : countryFilterCheck cs nm = .error e) : e = .keyError := by
  cases cs with
  | none => cases h
  | some l =>
      simp only [countryFilterCheck] at h
      by_cases hl : l.isEmpty = true
      · rw [if_pos hl] at h; cases h
      · rw [if_neg hl] at h
        cases nm with
        | none => exact (Except.error.inj h).symm
        | some s => cases h

theorem findKeyInMeta_error (ms : List RawMeta) (e : PyExc)
    (h : findKeyInMeta ms = .error e) : e = .keyError := by
  induction ms with
  | nil => cases h
  | cons m rest ih =>
      simp only [findKeyInMeta] at h
      split at h
      · exact (Except.error.inj h).symm
      · split at h
        · split at h
          · exact (Except.error.inj h).symm
          · cases h
        · exact ih h

theorem findKeyInMeta_no_pk (ms : List RawMeta)
    (h : (ms.any fun m => m.name == some "public_key") = false) :
    ∀ v, findKeyInMeta ms ≠ .ok (some v) := by
  induction ms with
  | nil => intro v hc; exact absurd hc (by simp [findKeyInMeta])
  | cons m rest ih =>
      rw [List.any_cons] at h
      obtain ⟨h1, h2⟩ := Bool.or_eq_false_iff.mp h
      intro v hc
      simp only [findKeyInMeta] at hc
      split at hc
      · cases hc
      · next nm hm =>
          have hne : nm ≠ "public_key" := by
            rw [hm] at h1
            simpa using h1
          rw [if_neg hne] at hc
          exact ih h2 v hc

theorem findPublicKey_error (techs : List RawTech) (e : PyExc)
    (h : findPublicKey techs = .error e) : e = .keyError ∨ e = .stopIteration := by
  induction techs with
  | nil => exact Or.inr (Except.error.inj h).symm
  | cons t rest ih =>
      simp only [findPublicKey] at h
      split at h
      · exact Or.inl (Except.error.inj h).symm
      · split at h
        · split at h
          · exact Or.inl (Except.error.inj h).symm
          · split at h
            · next e2 hfk =>
                have h3 := (Except.error.inj h)
                rw [← h3]
                exact Or.inl (findKeyInMeta_error _ e2 hfk)
            · cases h
            · exact ih h
        · exact ih h

theorem findPublicKey_no_key (techs : List RawTech)
    (h : hasWireguardKey techs = false) : ∀ v, findPublicKey techs ≠ .ok v := by
  induction techs with
  | nil => intro v hc; cases hc
  | cons t rest ih =>
      rw [hasWireguardKey, List.any_cons] at h
      obtain ⟨h1, h2⟩ := Bool.or_eq_false_iff.mp h
      have hrest : hasWireguardKey rest = false := h2
      intro v hc
      simp only [findPublicKey] at hc
      split at hc
      · cases hc
      · next tid hid =>
          split at hc
          · next hw =>
              split at hc
              · cases hc
              · next ms hmd =>
                  have hany : (ms.any fun m => m.name == some "public_key") = false := by
                    rw [hid, hmd] at h1
                    subst hw
                    simpa using h1
                  split at hc
                  · cases hc
                  · next pk hfk => exact findKeyInMeta_no_pk ms hany pk hfk
                  · next hfk => exact ih hrest v hc
          · exact ih hrest v hc

theorem parseServerBody_no_key_cases (dist : ℚ → ℚ → ℚ → ℚ → ℚ) (userLoc : ℚ × ℚ)
    (prefs : UserPreferences) (tp : List String) (r : RawServer)
    (hk : hasWireguardKey (r.technologies.getD []) = false) :
    parseServerBody dist userLoc prefs tp r = .ok none ∨
    parseServerBody dist userLoc prefs tp r = .error .keyError ∨
    parseServerBody dist userLoc prefs tp r = .error .indexError ∨
    parseServerBody dist userLoc prefs tp r = .error .stopIteration ∨
    (parseServerBody dist userLoc prefs tp r = .error .valueError ∧
      pyInt r.load = .error .valueError) := by
  by_cases h1 : typeFilterAccepts prefs.server_types (r.groups.map fun g => g.identifier) = true
  case neg =>
    left
    simp [parseServerBody, h1]
  by_cases h2 : regionFilterAccepts prefs.regions (r.groups.map fun g => g.identifier) = true
  case neg =>
    left
    simp [parseServerBody, h1, h2]
  cases hload : pyInt r.load with
  | error e =>
      have he := pyInt_error _ _ hload
      subst he
      right; right; right; right
      exact ⟨by simp [parseServerBody, h1, h2, hload], rfl⟩
  | ok n =>
      by_cases h3 : n > prefs.max_load
      case pos =>
        left
        simp [parseServerBody, h1, h2, hload, h3]
      cases hlocs : r.locations with
      | none =>
          right; left
          simp [parseServerBody, h1, h2, hload, h3, hlocs]
      | some locs =>
          cases locs with
          | nil =>
              right; right; left
              simp [parseServerBody, h1, h2, hload, h3, hlocs]
          | cons loc rest =>
              cases hci : loc.country with
              | none =>
                  right; left
                  simp [parseServerBody, h1, h2, hload, h3, hlocs, hci]
              | some ci =>
                  cases hcf : countryFilterCheck prefs.countries ci.name with
                  | error e =>
                      have he := countryFilterCheck_error _ _ _ hcf
                      subst he
                      right; left
                      simp [parseServerBody, h1, h2, hload, h3, hlocs, hci, hcf]
                  | ok b =>
                      cases b with
                      | false =>
                          left
                          simp [parseServerBody, h1, h2, hload, h3, hlocs, hci, hcf]
                      | true =>
                          by_cases h4 : cityFilterAccepts prefs.cities (cityNameOf ci) = true
                          case neg =>
                            left
                            simp [parseServerBody, h1, h2, hload, h3, hlocs, hci, hcf, h4]
                          cases htechs : r.technologies with
                          | none =>
                              right; left
                              simp [parseServerBody, h1, h2, hload, h3, hlocs, hci, hcf, h4,
                                htechs]
                          | some techs =>
                              cases hpk : findPublicKey techs with
                              | ok v =>
                                  exfalso
                                  refine findPublicKey_no_key techs ?_ v hpk
                                  rw [htechs] at hk
                                  simpa using hk
                              | error e =>
                                  rcases findPublicKey_error techs e hpk with rfl | rfl
                                  · right; left
                                    simp [parseServerBody, h1, h2, hload, h3, hlocs, hci, hcf,
                                      h4, htechs, hpk]
                                  · right; right; right; left
                                    simp [parseServerBody, h1, h2, hload, h3, hlocs, hci, hcf,
                                      h4, htechs, hpk]

/-- C7 (amended): for a raw record whose technologies contain no
wireguard_udp public key, the parser never constructs a Server: every
returning path yields the rejection `None`, and when the load field is
absent or numeric-convertible the parser returns exactly `.ok none`.  (A
keyless record with a non-numeric load instead raises the uncaught
`ValueError` of the load conversion, which runs before the key search — see
the C7 counterexample and the C6 code bug.) -/
theorem claim7_no_key_is_rejected (dist : ℚ → ℚ → ℚ → ℚ → ℚ) (userLoc : ℚ × ℚ)
    (prefs : UserPreferences) (tp : List String) (r : RawServer)
    (hk : hasWireguardKey (r.technologies.getD []) = false) :
    (∀ s, parseServerData dist userLoc prefs tp r ≠ .ok (some s)) ∧
    (∀ n, pyInt r.load = .ok n → parseServerData dist userLoc prefs tp r = .ok none) := by
  have hbody := parseServerBody_no_key_cases dist userLoc prefs tp r hk
  constructor
  · intro s hc
    simp only [parseServerData] at hc
    rcases hbody with h | h | h | h | ⟨h, _⟩ <;> rw [h] at hc <;> simp at hc
  · intro n hn
    simp only [parseServerData]
    rcases hbody with h | h | h | h | ⟨h, hpe⟩
    · rw [h]
    · rw [h]
    · rw [h]
    · rw [h]
    · rw [hn] at hpe
      cases hpe

/-- A technology entry that is not wireguard_udp. -/
def c7Tech : RawTech := { identifier := some "openvpn_udp", metadata := some [] }

/-- A record with technologies but no wireguard_udp public key. -/
def c7Record : RawServer := { c4Record with technologies := some [c7Tech] }

/-- C7 witness: the concrete keyless record is rejected with `.ok none`;
both hypotheses are discharged by evaluation. -/
theorem claim7_witness :
    parseServerData (fun _ _ _ _ => 0) (0, 0) {} [] c7Record = .ok none :=
  (claim7_no_key_is_rejected (fun _ _ _ _ => 0) (0, 0) {} [] c7Record (by decide)).2 10
    (by decide)

/-- The C7 failing input: the keyless record with a non-numeric load. -/
def c7BadLoadRecord : RawServer := { c7Record with load := .str "x" }

/-- C7 counterexample: a record with no wireguard_udp public key but a
non-numeric load does not return the rejection `None` — the `ValueError` of
the load conversion (which runs before the key search) escapes the parser —
so the original claim that every keyless record returns a rejection fails. -/
theorem claim7_counterexample :
    hasWireguardKey (c7BadLoadRecord.technologies.getD []) = false ∧
    parseServerData (fun _ _ _ _ => 0) (0, 0) {} [] c7BadLoadRecord = .error .valueError ∧
    parseServerData (fun _ _ _ _ => 0) (0, 0) {} [] c7BadLoadRecord ≠ .ok none := by
  decide

/-- A location record whose country sub-record carries the given name and
code but no city entry. -/
def locationNoCity (cname ccode : Option String) (llat llon : Option ℚ) : RawLocation :=
  { country := some { name := cname, code := ccode, city := none },
    latitude := llat, longitude := llon }

/-- A raw server record whose first location's country lacks a city entry;
every other field is arbitrary. -/
def recordNoCity (rn rh rst : Option String) (rl : LoadVal) (locs : List RawLocation)
    (rtechs : Option (List RawTech)) (rgs : List RawGroup)
    (cname ccode : Option String) (llat llon : Option ℚ) : RawServer :=
  { name := rn, hostname := rh, station := rst, load := rl,
    locations := some (locationNoCity cname ccode llat llon :: locs),
    technologies := rtechs, groups := rgs }

/-- C8 (amended): when parsing succeeds on a record whose location's country
sub-record lacks a city entry, the constructed Server's `city` field is the
string "Unknown" — with a capital U, from `.get('name', 'Unknown')` — not
the spec's lowercase "unknown". -/
theorem claim8_city_defaults_to_capital_unknown (dist : ℚ → ℚ → ℚ → ℚ → ℚ)
    (userLoc : ℚ × ℚ) (prefs : UserPreferences) (tp : List String)
    (rn rh rst : Option String) (rl : LoadVal) (locs : List RawLocation)
    (rtechs : Option (List RawTech)) (rgs : List RawGroup)
    (cname ccode : Option String) (llat llon : Option ℚ) (s : Server)
    (h : parseServerData dist userLoc prefs tp
      (recordNoCity rn rh rst rl locs rtechs rgs cname ccode llat llon) = .ok (some s)) :
    s.city = "Unknown" := by
  have hb : parseServerBody dist userLoc prefs tp
      (recordNoCity rn rh rst rl locs rtechs rgs cname ccode llat llon) = .ok (some s) := by
    cases hb0 : parseServerBody dist userLoc prefs tp
        (recordNoCity rn rh rst rl locs rtechs rgs cname ccode llat llon) with
    | ok v =>
        simp [parseServerData, hb0] at h
        rw [h]
    | error e => cases e <;> simp [parseServerData, hb0] at h
  simp only [parseServerBody, recordNoCity, locationNoCity] at hb
  split at hb <;> try simp at hb
  split at hb <;> try simp at hb
  split at hb <;> try simp at hb
  split at hb <;> try simp at hb
  split at hb <;> try simp at hb
  split at hb <;> try simp at hb
  split at hb <;> try simp at hb
  split at hb <;> try simp at hb
  split at hb <;> try simp at hb
  split at hb <;> try simp at hb
  split at hb <;> try simp at hb
  subst hb
  rfl

/-- The C8 concrete record: the valid C4 record with the city entry removed
from its country sub-record. -/
def c8Record : RawServer :=
  { c4Record with locations := some [locationNoCity (some "Germany") (some "DE")
      (some 52) (some 13)] }

/-- The Server that parsing `c8Record` produces. -/
def c8Expected : Server :=
  { name := "de1000", hostname := "de1000.nordvpn.com", station := "1.2.3.4",
    load := 10, country := "Germany", country_code := "de", city := "Unknown",
    region := "Europe", server_type := "Standard", latitude := 52, longitude := 13,
    public_key := "KEY", distance := 0 }

/-- C8 counterexample: a record passing every rejection condition whose
country sub-record lacks a city entry parses into a Server whose `city` is
"Unknown", not the claimed lowercase "unknown". -/
theorem claim8_counterexample :
    parseServerData (fun _ _ _ _ => 0) (0, 0) {} [] c8Record = .ok (some c8Expected) ∧
    c8Expected.city ≠ "unknown" := by
  decide

/-- C8 witness: the amended theorem applied to the concrete record, its
parse-success hypothesis discharged by evaluation. -/
theorem claim8_witness : c8Expected.city = "Unknown" :=
  claim8_city_defaults_to_capital_unknown (fun _ _ _ _ => 0) (0, 0) {} []
    (some "de1000") (some "de1000.nordvpn.com") (some "1.2.3.4") (.num 10) []
    (some [c4Tech]) c4Record.groups (some "Germany") (some "DE") (some 52) (some 13)
    c8Expected (by decide)

/-- Stable insertion: the new element goes after every strictly-smaller
element and before the first not-smaller one, so elements that compare
equal keep their input order. -/
def stableInsert {α : Type} (lt : α → α → Bool) (a : α) : List α → List α
  | [] => [a]
  | b :: l => if lt b a then b :: stableInsert lt a l else a :: b :: l

/-- Python's `sorted` is a stable sort, and a stable sort by a total
preorder is extensionally unique; it is modelled here by stable insertion
sort with the strict comparison `lt`. -/
def stableSort {α : Type} (lt : α → α → Bool) : List α → List α
  | [] => []
  | a :: l => stableInsert lt a (stableSort lt l)

theorem mem_stableInsert {α : Type} (lt : α → α → Bool) (a x : α) (l : List α) :
    x ∈ stableInsert lt a l ↔ x = a ∨ x ∈ l := by
  induction l with
  | nil => simp [stableInsert]
  | cons b l' ih =>
      by_cases h : lt b a = true
      · rw [stableInsert, if_pos h]
        simp only [List.mem_cons, ih]
        tauto
      · rw [stableInsert, if_neg h]
        simp only [List.mem_cons]

theorem mem_stableSort {α : Type} (lt : α → α → Bool) (x : α) (l : List α) :
    x ∈ stableSort lt l ↔ x ∈ l := by
  induction l with
  | nil => simp [stableSort]
  | cons a l' ih =>
      rw [stableSort, mem_stableInsert, ih, List.mem_cons]

theorem pairwise_stableInsert {α : Type} (lt : α → α → Bool)
    (hasymm : ∀ x y, lt x y = true → lt y x = false)
    (htrans : ∀ x y z, lt x y = false → lt z x = false → lt z y = false)
    (a : α) (l : List α) (hl : l.Pairwise (fun x y => lt y x = false)) :
    (stableInsert lt a l).Pairwise (fun x y => lt y x = false) := by
  induction l with
  | nil => simp [stableInsert]
  | cons b l' ih =>
      rw [List.pairwise_cons] at hl
      obtain ⟨hb, hl'⟩ := hl
      by_cases h : lt b a = true
      · rw [stableInsert, if_pos h, List.pairwise_cons]
        constructor
        · intro y hy
          rcases (mem_stableInsert lt a y l').mp hy with rfl | hy'
          · exact hasymm b y h
          · exact hb y hy'
        · exact ih hl'
      · have h' : lt b a = false := by
          revert h
          cases lt b a <;> simp
        rw [stableInsert, if_neg h, List.pairwise_cons]
        constructor
        · intro y hy
          rcases List.mem_cons.mp hy with rfl | hy'
          · exact h'
          · exact htrans b a y h' (hb y hy')
        · exact List.pairwise_cons.mpr ⟨hb, hl'⟩

theorem pairwise_stableSort {α : Type} (lt : α → α → Bool)
    (hasymm : ∀ x y, lt x y = true → lt y x = false)
    (htrans : ∀ x y z, lt x y = false → lt z x = false → lt z y = false)
    (l : List α) : (stableSort lt l).Pairwise (fun x y => lt y x = false) := by
  induction l with
  | nil => simp [stableSort]
  | cons a l' ih =>
      rw [stableSort]
      exact pairwise_stableInsert lt hasymm htrans a _ ih

theorem find?_pairwise_min {α : Type} (lt : α → α → Bool) (p : α → Bool) (l : List α)
    (hl : l.Pairwise (fun x y => lt y x = false)) :
    ∀ t, l.find? p = some t → ∀ u ∈ l, p u = true → u = t ∨ lt u t = false := by
  induction l with
  | nil => intro t ht; cases ht
  | cons a l' ih =>
      rw [List.pairwise_cons] at hl
      obtain ⟨ha, hl'⟩ := hl
      intro t ht u hu hpu
      by_cases hpa : p a = true
      · rw [List.find?_cons_of_pos _ hpa] at ht
        have hta : a = t := Option.some.inj ht
        rcases List.mem_cons.mp hu with rfl | hu'
        · exact Or.inl hta
        · exact Or.inr (hta ▸ ha u hu')
      · rw [List.find?_cons_of_neg _ hpa] at ht
        rcases List.mem_cons.mp hu with rfl | hu'
        · exact absurd hpu hpa
        · exact ih hl' t ht u hu' hpu

/-- One step of the per-type counter of `build_metadata` (lines 169-175):
a Python dict increment, keeping first-encounter key order. -/
def bumpCount (k : String) : List (String × Nat) → List (String × Nat)
  | [] => [(k, 1)]
  | (k', n) :: rest => if k' = k then (k', n + 1) :: rest else (k', n) :: bumpCount k rest

/-- Count the `legacy_` group identifiers of one server's groups, each read
with `.get('identifier', '')`. -/
def countGroups (acc : List (String × Nat)) (gs : List RawGroup) : List (String × Nat) :=
  gs.foldl
    (fun a g =>
      if strStartsWith "legacy_" (g.identifier.getD "") then bumpCount (g.identifier.getD "") a
      else a)
    acc

/-- `type_counts` over the whole server population. -/
def typeCounts (servers : List (List RawGroup)) : List (String × Nat) :=
  servers.foldl countGroups []

/-- `type_counts[t]` with 0 for an unseen type (the sort key of line 181). -/
def countOf (tc : List (String × Nat)) (t : String) : Nat :=
  match tc.find? (fun q => q.1 == t) with
  | some q => q.2
  | none => 0

/-- `type_priority` of `build_metadata` (lines 179-184): every counted type
except `legacy_standard`, stably sorted ascending by count (rarest first),
then `legacy_standard` appended when present. -/
def typePriority (tc : List (String × Nat)) : List String :=
  stableSort (fun a b => decide (countOf tc a < countOf tc b))
      ((tc.map Prod.fst).filter fun t => !(t == "legacy_standard")) ++
    (if (tc.map Prod.fst).contains "legacy_standard" then ["legacy_standard"] else [])

theorem determine_min_aux (tc : List (String × Nat)) (ids : List String)
    (hsub : ∀ t ∈ ids.filter (fun g => strStartsWith "legacy_" g), t ∈ tc.map Prod.fst)
    (hne : ids.filter (fun g => strStartsWith "legacy_" g) ≠ []) :
    ∃ t ∈ ids.filter (fun g => strStartsWith "legacy_" g),
      determineServerType ids (typePriority tc) none = formatTypeName t ∧
      (t ≠ "legacy_standard" → ∀ u ∈ ids.filter (fun g => strStartsWith "legacy_" g),
        u ≠ "legacy_standard" → countOf tc t ≤ countOf tc u) ∧
      (t = "legacy_standard" → ∀ u ∈ ids.filter (fun g => strStartsWith "legacy_" g),
        u = "legacy_standard") := by
  obtain ⟨t0, r0, hleg⟩ : ∃ t0 r0, ids.filter (fun g => strStartsWith "legacy_" g) = t0 :: r0 := by
    cases hc : ids.filter (fun g => strStartsWith "legacy_" g) with
    | nil => exact absurd hc hne
    | cons a b => exact ⟨a, b, rfl⟩
  have hdet : determineServerType ids (typePriority tc) none =
      match (typePriority tc).find? (fun t => (t0 :: r0).contains t) with
      | some t => formatTypeName t
      | none => formatTypeName t0 := by
    simp only [determineServerType]
    rw [hleg]
  have hmemp : ∀ u, ((t0 :: r0).contains u = true) ↔
      u ∈ ids.filter (fun g => strStartsWith "legacy_" g) := by
    intro u
    rw [hleg]
    constructor
    · intro h
      unfold List.contains at h
      exact List.elem_iff.mp h
    · intro h
      unfold List.contains
      exact List.elem_eq_true_of_mem h
  have hasymm : ∀ x y : String,
      (fun a b => decide (countOf tc a < countOf tc b)) x y = true →
      (fun a b => decide (countOf tc a < countOf tc b)) y x = false := by
    intro x y h
    simp only [decide_eq_true_eq] at h
    simp only [decide_eq_false_iff_not]
    omega
  have htrans : ∀ x y z : String,
      (fun a b => decide (countOf tc a < countOf tc b)) x y = false →
      (fun a b => decide (countOf tc a < countOf tc b)) z x = false →
      (fun a b => decide (countOf tc a < countOf tc b)) z y = false := by
    intro x y z h1 h2
    simp only [decide_eq_false_iff_not] at h1 h2 ⊢
    omega
  have hpw := pairwise_stableSort (fun a b => decide (countOf tc a < countOf tc b))
    hasymm htrans ((tc.map Prod.fst).filter fun t => !(t == "legacy_standard"))
  have hmem_sorted : ∀ u, u ∈ ids.filter (fun g => strStartsWith "legacy_" g) →
      u ≠ "legacy_standard" →
      u ∈ stableSort (fun a b => decide (countOf tc a < countOf tc b))
        ((tc.map Prod.fst).filter fun t => !(t == "legacy_standard")) := by
    intro u hu hneq
    rw [mem_stableSort, List.mem_filter]
    refine ⟨hsub u hu, ?_⟩
    simp [hneq]
  cases hs : (stableSort (fun a b => decide (countOf tc a < countOf tc b))
      ((tc.map Prod.fst).filter fun t => !(t == "legacy_standard"))).find?
      (fun t => (t0 :: r0).contains t) with
  | some t1 =>
      have hfind : (typePriority tc).find? (fun t => (t0 :: r0).contains t) = some t1 := by
        rw [typePriority, List.find?_append, hs]
        rfl
      have hp1 : ((t0 :: r0).contains t1) = true := by
        simpa using List.find?_some hs
      have ht1mem : t1 ∈ ids.filter (fun g => strStartsWith "legacy_" g) := (hmemp t1).mp hp1
      have ht1sorted := List.mem_of_find?_eq_some hs
      have ht1ne : t1 ≠ "legacy_standard" := by
        rw [mem_stableSort, List.mem_filter] at ht1sorted
        simpa using ht1sorted.2
      refine ⟨t1, ht1mem, ?_, ?_, ?_⟩
      · rw [hdet, hfind]
      · intro _ u hu hune
        have husorted := hmem_sorted u hu hune
        have hpu : ((t0 :: r0).contains u) = true := (hmemp u).mpr hu
        rcases find?_pairwise_min (fun a b => decide (countOf tc a < countOf tc b))
            (fun t => (t0 :: r0).contains t) _ hpw t1 hs u husorted hpu with rfl | hlt
        · exact le_refl _
        · simp only [decide_eq_false_iff_not] at hlt
          omega
      · intro h
        exact absurd h ht1ne
  | none =>
      have hall : ∀ u ∈ ids.filter (fun g => strStartsWith "legacy_" g),
          u = "legacy_standard" := by
        intro u hu
        by_contra hneq
        have husorted := hmem_sorted u hu hneq
        have hpu := (hmemp u).mpr hu
        exact List.find?_eq_none.mp hs u husorted hpu
      have ht0mem : t0 ∈ ids.filter (fun g => strStartsWith "legacy_" g) := by
        rw [hleg]
        simp
      have ht0std : t0 = "legacy_standard" := hall t0 ht0mem
      have hstdmem : ("legacy_standard" : String) ∈ ids.filter
          (fun g => strStartsWith "legacy_" g) := ht0std ▸ ht0mem
      have hstdkeys : ("legacy_standard" : String) ∈ tc.map Prod.fst :=
        hsub _ hstdmem
      have htail : (if (tc.map Prod.fst).contains "legacy_standard"
          then ["legacy_standard"] else []) = ["legacy_standard"] := by
        rw [if_pos]
        unfold List.contains
        exact List.elem_eq_true_of_mem hstdkeys
      have hpstd : ((t0 :: r0).contains "legacy_standard") = true :=
        (hmemp _).mpr hstdmem
      have hfind : (typePriority tc).find? (fun t => (t0 :: r0).contains t) =
          some "legacy_standard" := by
        have hstdcons : ("legacy_standard" : String) ∈ t0 :: r0 := by
          have h2 := hpstd
          unfold List.contains at h2
          exact List.elem_iff.mp h2
        rw [typePriority, List.find?_append, hs, htail]
        simp [hpstd]
        intro h
        rcases List.mem_cons.mp hstdcons with he | hm
        · exact absurd he h
        · exact hm
      refine ⟨"legacy_standard", hstdmem, ?_, ?_, ?_⟩
      · rw [hdet, hfind]
      · intro h
        exact absurd rfl h
      · intro _
        exact hall

/-- C5: with the type priority computed from the record population and no
user restriction, a record's resolved serverType is the display name of one
of its legacy types whose occurrence count in the population is minimal
among the record's non-generic legacy types; the generic `legacy_standard`
is resolved only when it is the record's sole legacy type (it is ordered
last regardless of count).  The record's legacy types are assumed to be
counted in the population, as they are when the record is drawn from it. -/
theorem claim5_rarest_type_wins (pop : List (List RawGroup)) (ids : List String)
    (hsub : ∀ t ∈ ids.filter (fun g => strStartsWith "legacy_" g),
      t ∈ (typeCounts pop).map Prod.fst)
    (hne : ids.filter (fun g => strStartsWith "legacy_" g) ≠ []) :
    ∃ t ∈ ids.filter (fun g => strStartsWith "legacy_" g),
      determineServerType ids (typePriority (typeCounts pop)) none = formatTypeName t ∧
      (t ≠ "legacy_standard" → ∀ u ∈ ids.filter (fun g => strStartsWith "legacy_" g),
        u ≠ "legacy_standard" → countOf (typeCounts pop) t ≤ countOf (typeCounts pop) u) ∧
      (t = "legacy_standard" → ∀ u ∈ ids.filter (fun g => strStartsWith "legacy_" g),
        u = "legacy_standard") :=
  determine_min_aux (typeCounts pop) ids hsub hne

/-- A P2P legacy group entry. -/
def grpP2P : RawGroup := { identifier := some "legacy_p2p" }

/-- A Standard legacy group entry. -/
def grpStd : RawGroup := { identifier := some "legacy_standard" }

/-- The spec's type-priority scenario population: "P2P" occurs on 2 records,
"Standard" on 8. -/
def popP2P : List (List RawGroup) :=
  List.replicate 2 [grpP2P, grpStd] ++ List.replicate 6 [grpStd]

/-- A record belonging to both the P2P and the Standard group. -/
def idsP2P : List String := ["legacy_p2p", "legacy_standard"]

/-- C5 witness: in the 2-vs-8 population the doubly-tagged record resolves
to "P2P"; the theorem is applied with both hypotheses evaluated. -/
theorem claim5_witness :
    determineServerType idsP2P (typePriority (typeCounts popP2P)) none = "P2P" ∧
    (∃ t ∈ idsP2P.filter (fun g => strStartsWith "legacy_" g),
      determineServerType idsP2P (typePriority (typeCounts popP2P)) none = formatTypeName t ∧
      (t ≠ "legacy_standard" → ∀ u ∈ idsP2P.filter (fun g => strStartsWith "legacy_" g),
        u ≠ "legacy_standard" →
          countOf (typeCounts popP2P) t ≤ countOf (typeCounts popP2P) u) ∧
      (t = "legacy_standard" → ∀ u ∈ idsP2P.filter (fun g => strStartsWith "legacy_" g),
        u = "legacy_standard")) :=
  ⟨by decide, claim5_rarest_type_wins popP2P idsP2P (by decide) (by decide)⟩
